import Mathlib

/-!
Verification of the rom-tools repository (Go) against its natural-language
specification.  The Go code is shallowly embedded: bytes are `Nat` values
below 256, byte buffers are `List Nat`, machine-integer truncation is
explicit `% 2^w`, fallible Go functions return `Except String`.
I/O and the compression codecs are abstracted as oracle parameters where a
claim does not depend on them.
-/

/-- A byte cast as in Go: `byte(x)` truncates to the low 8 bits. -/
def byteOf (x : Nat) : Nat := x % 256

/-! ## CHD hunk map (src/lib/chd/map.go)

`mapEntry` represents a single hunk entry of the decoded V5 hunk map:
compression type, compressed length, file offset (or referent hunk index
for self references) and the CRC-16 of the uncompressed data. -/

structure MapEntry where
  compression : Nat
  length : Nat
  offset : Nat
  crc16 : Nat
  deriving Repr, DecidableEq

/-- Serialization of one map entry to its canonical 12-byte form, embedding
the per-entry block of `calculateMapCRC` (map.go lines 255-272):
1 byte compression, 24-bit big-endian length, 48-bit big-endian offset,
16-bit big-endian CRC. -/
def serializeMapEntry (e : MapEntry) : List Nat :=
  [ byteOf e.compression,
    byteOf (e.length >>> 16), byteOf (e.length >>> 8), byteOf e.length,
    byteOf (e.offset >>> 40), byteOf (e.offset >>> 32), byteOf (e.offset >>> 24),
    byteOf (e.offset >>> 16), byteOf (e.offset >>> 8), byteOf e.offset,
    byteOf (e.crc16 >>> 8), byteOf e.crc16 ]

/-- One shift-and-conditionally-xor round of the CRC-16-CCITT inner loop
(map.go lines 282-287), on 16-bit state. -/
def crc16Round (crc : Nat) : Nat :=
  if crc &&& 0x8000 ≠ 0 then ((crc <<< 1) ^^^ 0x1021) % 65536 else (crc <<< 1) % 65536

/-- Iterate `crc16Round` n times (the `for range 8` loop of `crc16`). -/
def crc16Shift : Nat → Nat → Nat
  | 0, crc => crc
  | n + 1, crc => crc16Shift n (crc16Round crc)

/-- Fold one data byte into the CRC state: `crc ^= uint16(b) << 8` followed
by eight rounds (map.go lines 280-288). -/
def crc16Byte (crc b : Nat) : Nat := crc16Shift 8 (crc ^^^ ((b % 256) <<< 8))

/-- CRC-16-CCITT with polynomial 0x1021 and initial value 0xFFFF
(map.go `crc16`, lines 277-290). -/
def crc16 (data : List Nat) : Nat := data.foldl crc16Byte 0xFFFF

/-- CRC-16 of the serialized decoded map: each entry rendered to 12 bytes,
then `crc16` over the concatenation (map.go `calculateMapCRC`). -/
def calculateMapCRC (entries : List MapEntry) : Nat :=
  crc16 (entries.map serializeMapEntry).flatten

/-- The CRC verification step of `decodeMap` (map.go lines 84-89): after
decoding the entries, compare `calculateMapCRC` with the CRC-16 stored in
the 16-byte map header; a mismatch fails the whole map decode. -/
def verifyMapCRC (entries : List MapEntry) (mapCRC : Nat) : Except String (List MapEntry) :=
  if calculateMapCRC entries ≠ mapCRC then
    .error "map CRC mismatch"
  else
    .ok entries

/-- Big-endian rendering of `x` into `n` bytes, most significant first.
This follows the specification text for the canonical serialization
(1 type + 24-bit length + 48-bit offset + 16-bit CRC, all big-endian). -/
def beBytes : Nat → Nat → List Nat
  | 0, _ => []
  | n + 1, x => beBytes n (x / 256) ++ [x % 256]

/-- The canonical 12-byte entry form exactly as the specification words it:
1 byte compression type, 24-bit big-endian length, 48-bit big-endian
offset, 16-bit big-endian CRC. -/
def canonical12 (e : MapEntry) : List Nat :=
  [e.compression] ++ beBytes 3 e.length ++ beBytes 6 e.offset ++ beBytes 2 e.crc16

theorem crc16_nil : crc16 [] = 0xFFFF := rfl

/-- C1: after decoding the CHD v5 hunk map the decoder serializes every
entry to the canonical 12-byte big-endian form, computes CRC-16-CCITT
(polynomial 0x1021, initial value 0xFFFF) over that serialization, fails
exactly when the computed CRC differs from the CRC stored in the map
header, and succeeds exactly when they agree. -/
theorem chd_mapCRC_check (entries : List MapEntry) (mapCRC : Nat) (e : MapEntry)
    (hc : e.compression < 256) :
    ((∃ msg, verifyMapCRC entries mapCRC = .error msg) ↔ calculateMapCRC entries ≠ mapCRC)
    ∧ (verifyMapCRC entries mapCRC = .ok entries ↔ calculateMapCRC entries = mapCRC)
    ∧ calculateMapCRC entries = crc16 (entries.map serializeMapEntry).flatten
    ∧ serializeMapEntry e = canonical12 e := by
  refine ⟨?_, ?_, rfl, ?_⟩
  · constructor
    · rintro ⟨msg, hmsg⟩
      intro heq
      simp [verifyMapCRC, heq] at hmsg
    · intro hne
      exact ⟨"map CRC mismatch", by simp [verifyMapCRC, hne]⟩
  · constructor
    · intro hok
      by_contra hne
      simp [verifyMapCRC, hne] at hok
    · intro heq
      simp [verifyMapCRC, heq]
  · simp only [serializeMapEntry, canonical12, beBytes, byteOf,
      Nat.shiftRight_eq_div_pow]
    norm_num
    omega

/-- Closed witness for the CRC-check theorem at a concrete map entry and a
concrete entry list. -/
theorem chd_mapCRC_check_witness :
    ((∃ msg, verifyMapCRC [MapEntry.mk 4 16 3 7] 5 = .error msg)
        ↔ calculateMapCRC [MapEntry.mk 4 16 3 7] ≠ 5)
    ∧ (verifyMapCRC [MapEntry.mk 4 16 3 7] 5 = .ok [MapEntry.mk 4 16 3 7]
        ↔ calculateMapCRC [MapEntry.mk 4 16 3 7] = 5)
    ∧ calculateMapCRC [MapEntry.mk 4 16 3 7]
        = crc16 ([MapEntry.mk 4 16 3 7].map serializeMapEntry).flatten
    ∧ serializeMapEntry (MapEntry.mk 4 16 3 7) = canonical12 (MapEntry.mk 4 16 3 7) :=
  chd_mapCRC_check [MapEntry.mk 4 16 3 7] 5 (MapEntry.mk 4 16 3 7) (by decide)

/-! ## CHD v5 header parsing (src/lib/format/chd/root.go)

`ParseCHD` reads the fixed 124-byte header of a CHD file and `Open`
additionally rejects files whose parent SHA1 is non-empty.  The input file
is a byte list; its length plays the role of the `size` argument. -/

/-- Big-endian 32-bit read at byte index `i` (binary.BigEndian.Uint32). -/
def readBE32 (b : List Nat) (i : Nat) : Nat :=
  b.getD i 0 * 16777216 + b.getD (i + 1) 0 * 65536 + b.getD (i + 2) 0 * 256 + b.getD (i + 3) 0

/-- Big-endian 64-bit read at byte index `i` (binary.BigEndian.Uint64). -/
def readBE64 (b : List Nat) (i : Nat) : Nat :=
  readBE32 b i * 4294967296 + readBE32 b (i + 4)

/-- A hex digit character, lowercase (hex.EncodeToString digit). -/
def hexDigitChar (n : Nat) : Char :=
  if n < 10 then Char.ofNat (48 + n) else Char.ofNat (87 + n)

/-- Lowercase hex encoding of a byte list (hex.EncodeToString). -/
def hexEncode (bs : List Nat) : String :=
  String.mk ((bs.map fun b => [hexDigitChar ((b % 256) / 16), hexDigitChar (b % 16)]).flatten)

/-- The decoded CHD header fields (CHDInfo in root.go). -/
structure CHDInfo where
  version : Nat
  compressors : List Nat
  logicalBytes : Nat
  mapOffset : Nat
  metaOffset : Nat
  hunkBytes : Nat
  unitBytes : Nat
  totalHunks : Nat
  rawSHA1 : String
  sha1 : String
  parentSHA1 : String
  deriving Repr, DecidableEq

/-- The 8 ASCII bytes of the CHD magic "MComprHD". -/
def mcomprHD : List Nat := [77, 67, 111, 109, 112, 114, 72, 68]

/-- The CHDInfo record built by the success path of `ParseCHD`
(root.go lines 114-169). -/
def chdInfoOf (file : List Nat) : CHDInfo :=
  let logicalBytes := readBE64 file 32
  let hunkBytes := readBE32 file 56
  let parentBytes := (file.drop 104).take 20
  { version := readBE32 file 12
    compressors := [readBE32 file 16, readBE32 file 20, readBE32 file 24, readBE32 file 28]
    logicalBytes := logicalBytes
    mapOffset := readBE64 file 40
    metaOffset := readBE64 file 48
    hunkBytes := hunkBytes
    unitBytes := readBE32 file 60
    totalHunks :=
      if hunkBytes > 0 then
        (((logicalBytes + hunkBytes - 1) % 18446744073709551616) / hunkBytes) % 4294967296
      else 0
    rawSHA1 := hexEncode ((file.drop 64).take 20)
    sha1 := hexEncode ((file.drop 84).take 20)
    parentSHA1 :=
      if parentBytes.any (fun b => b != 0) then hexEncode parentBytes else "" }

/-- Embedding of `ParseCHD` (root.go lines 85-170).  The file is given as
its full byte list, so `size` is `file.length` and the 124-byte header
read succeeds whenever the size check passes. -/
def parseCHD (file : List Nat) : Except String CHDInfo :=
  if file.length < 124 then .error "file too small for CHD header"
  else if file.take 8 ≠ mcomprHD then .error "not a valid CHD file: invalid magic"
  else
    let headerLen := readBE32 file 8
    let version := readBE32 file 12
    if version < 5 then .error "CHD version not supported (only v5+ supported)"
    else if headerLen < 124 then .error "CHD header too small"
    else Except.ok (chdInfoOf file)

/-- The header-level portion of `Open` (root.go lines 189-199): parse the
header, then reject any file whose parent SHA1 string is non-empty.  The
subsequent hunk-map decode is a separate stage and is not part of the
header-level checks. -/
def openHeaderChecks (file : List Nat) : Except String CHDInfo :=
  match parseCHD file with
  | .error e => .error ("parse header: " ++ e)
  | .ok h => if h.parentSHA1 ≠ "" then .error "parent CHD references not supported" else .ok h

theorem hexEncode_ne_empty (bs : List Nat) (hbs : bs ≠ []) : hexEncode bs ≠ "" := by
  cases bs with
  | nil => exact absurd rfl hbs
  | cons b t =>
    intro h
    have := congrArg String.data h
    simp [hexEncode] at this

theorem openHeaderChecks_of_err (file : List Nat) (e : String)
    (hp : parseCHD file = .error e) :
    openHeaderChecks file = .error ("parse header: " ++ e) := by
  unfold openHeaderChecks
  rw [hp]

theorem openHeaderChecks_of_ok (file : List Nat) (h : CHDInfo)
    (hp : parseCHD file = .ok h) :
    openHeaderChecks file =
      if h.parentSHA1 ≠ "" then .error "parent CHD references not supported" else .ok h := by
  unfold openHeaderChecks
  rw [hp]

theorem parseCHD_err1 (file : List Nat) (h1 : file.length < 124) :
    parseCHD file = .error "file too small for CHD header" := by
  unfold parseCHD
  rw [if_pos h1]

theorem parseCHD_err2 (file : List Nat) (h1 : ¬ file.length < 124)
    (h2 : file.take 8 ≠ mcomprHD) :
    parseCHD file = .error "not a valid CHD file: invalid magic" := by
  unfold parseCHD
  rw [if_neg h1, if_pos h2]

theorem parseCHD_err3 (file : List Nat) (h1 : ¬ file.length < 124)
    (h2 : file.take 8 = mcomprHD) (h3 : readBE32 file 12 < 5) :
    parseCHD file = .error "CHD version not supported (only v5+ supported)" := by
  unfold parseCHD
  rw [if_neg h1, if_neg (fun hne => hne h2), if_pos h3]

theorem parseCHD_err4 (file : List Nat) (h1 : ¬ file.length < 124)
    (h2 : file.take 8 = mcomprHD) (h3 : ¬ readBE32 file 12 < 5)
    (h4 : readBE32 file 8 < 124) :
    parseCHD file = .error "CHD header too small" := by
  unfold parseCHD
  rw [if_neg h1, if_neg (fun hne => hne h2), if_neg h3, if_pos h4]

theorem parseCHD_ok (file : List Nat) (h1 : ¬ file.length < 124)
    (h2 : file.take 8 = mcomprHD) (h3 : ¬ readBE32 file 12 < 5)
    (h4 : ¬ readBE32 file 8 < 124) :
    parseCHD file = .ok (chdInfoOf file) := by
  unfold parseCHD
  rw [if_neg h1, if_neg (fun hne => hne h2), if_neg h3, if_neg h4]

theorem chdInfoOf_parent (file : List Nat) :
    (chdInfoOf file).parentSHA1 =
      (if ((file.drop 104).take 20).any (fun b => b != 0) then
        hexEncode ((file.drop 104).take 20) else "") := rfl

theorem parseCHD_ok_parent (file : List Nat) (h : CHDInfo) (hok : parseCHD file = .ok h) :
    h.parentSHA1 =
      (if ((file.drop 104).take 20).any (fun b => b != 0) then
        hexEncode ((file.drop 104).take 20) else "") := by
  by_cases h1 : file.length < 124
  · rw [parseCHD_err1 file h1] at hok
    exact absurd hok (by simp)
  by_cases h2 : file.take 8 = mcomprHD
  case neg => rw [parseCHD_err2 file h1 h2] at hok; exact absurd hok (by simp)
  by_cases h3 : readBE32 file 12 < 5
  · rw [parseCHD_err3 file h1 h2 h3] at hok
    exact absurd hok (by simp)
  by_cases h4 : readBE32 file 8 < 124
  · rw [parseCHD_err4 file h1 h2 h3 h4] at hok
    exact absurd hok (by simp)
  rw [parseCHD_ok file h1 h2 h3 h4] at hok
  injection hok with hh
  rw [← hh]
  exact chdInfoOf_parent file

/-- C2 counterexample input: 124 bytes with valid magic, version 5, parent
SHA1 all zero, but header-length field zero. -/
def chdCex : List Nat := mcomprHD ++ [0, 0, 0, 0] ++ [0, 0, 0, 5] ++ List.replicate 108 0

set_option maxRecDepth 8192 in
/-- C2 counterexample: this 124-byte input satisfies none of the claimed
rejection conditions (size ≥ 124, magic matches, version ≥ 5, parent SHA1
bytes all zero), yet opening rejects it, because the header-length field
is below 124 — a rejection reason the claim omits. -/
theorem chd_open_reject_counterexample :
    openHeaderChecks chdCex = .error "parse header: CHD header too small"
    ∧ ¬ (chdCex.length < 124 ∨ chdCex.take 8 ≠ mcomprHD ∨ readBE32 chdCex 12 < 5
        ∨ ((chdCex.drop 104).take 20).any (fun b => b != 0) = true) := by
  constructor
  · rw [openHeaderChecks_of_err chdCex _ (parseCHD_err4 chdCex (by decide) (by decide)
      (by decide) (by decide))]
    rfl
  · decide

/-- C2 amended: opening a CHD fails at the header level if and only if
size < 124, the magic mismatches, the version field is < 5, the
header-length field is < 124, or the 20 parent-SHA1 bytes are not all
zero; when the parent bytes are all zero the parsed parent string is
empty, and whenever the header checks return a header its parent string
is empty. -/
theorem chd_open_reject_iff (file : List Nat) :
    ((∃ e, openHeaderChecks file = .error e) ↔
      (file.length < 124 ∨ file.take 8 ≠ mcomprHD ∨ readBE32 file 12 < 5
        ∨ readBE32 file 8 < 124
        ∨ ((file.drop 104).take 20).any (fun b => b != 0) = true))
    ∧ (∀ h, parseCHD file = .ok h →
        ((file.drop 104).take 20).any (fun b => b != 0) = false → h.parentSHA1 = "")
    ∧ (∀ h, openHeaderChecks file = .ok h → h.parentSHA1 = "") := by
  have hiff : (∃ e, openHeaderChecks file = .error e) ↔
      (file.length < 124 ∨ file.take 8 ≠ mcomprHD ∨ readBE32 file 12 < 5
        ∨ readBE32 file 8 < 124
        ∨ ((file.drop 104).take 20).any (fun b => b != 0) = true) := by
    by_cases h1 : file.length < 124
    · exact iff_of_true ⟨_, openHeaderChecks_of_err file _ (parseCHD_err1 file h1)⟩
        (Or.inl h1)
    by_cases h2 : file.take 8 = mcomprHD
    case neg =>
      exact iff_of_true ⟨_, openHeaderChecks_of_err file _ (parseCHD_err2 file h1 h2)⟩
        (Or.inr (Or.inl h2))
    by_cases h3 : readBE32 file 12 < 5
    · exact iff_of_true ⟨_, openHeaderChecks_of_err file _ (parseCHD_err3 file h1 h2 h3)⟩
        (Or.inr (Or.inr (Or.inl h3)))
    by_cases h4 : readBE32 file 8 < 124
    · exact iff_of_true ⟨_, openHeaderChecks_of_err file _ (parseCHD_err4 file h1 h2 h3 h4)⟩
        (Or.inr (Or.inr (Or.inr (Or.inl h4))))
    have hok0 := parseCHD_ok file h1 h2 h3 h4
    have hpar0 := chdInfoOf_parent file
    have hopen := openHeaderChecks_of_ok file (chdInfoOf file) hok0
    by_cases hany : ((file.drop 104).take 20).any (fun b => b != 0) = true
    · rw [if_pos hany] at hpar0
      have hne : (chdInfoOf file).parentSHA1 ≠ "" := by
        rw [hpar0]
        apply hexEncode_ne_empty
        rcases List.any_eq_true.mp hany with ⟨x, hx, _⟩
        exact List.ne_nil_of_mem hx
      rw [if_pos hne] at hopen
      exact iff_of_true ⟨_, hopen⟩ (Or.inr (Or.inr (Or.inr (Or.inr hany))))
    · rw [if_neg hany] at hpar0
      rw [if_neg (by simp [hpar0])] at hopen
      refine iff_of_false ?_ ?_
      · rintro ⟨e, he⟩
        rw [hopen] at he
        exact absurd he (by simp)
      · intro hc
        rcases hc with c | c | c | c | c
        · omega
        · exact absurd h2 c
        · omega
        · omega
        · exact absurd c hany
  refine ⟨hiff, ?_, ?_⟩
  · intro h hok hall
    have hpp := parseCHD_ok_parent file h hok
    rw [hall] at hpp
    simpa using hpp
  · intro h hok
    cases hp : parseCHD file with
    | error e2 =>
      rw [openHeaderChecks_of_err file e2 hp] at hok
      exact absurd hok (by simp)
    | ok h2 =>
      rw [openHeaderChecks_of_ok file h2 hp] at hok
      by_cases hpar : h2.parentSHA1 ≠ ""
      · rw [if_pos hpar] at hok
        exact absurd hok (by simp)
      · rw [if_neg hpar] at hok
        push_neg at hpar
        injection hok with hh
        rw [← hh]
        exact hpar

/-- A minimal well-formed 124-byte CHD header used as concrete input. -/
def chdOkFile : List Nat :=
  mcomprHD ++ [0, 0, 0, 124] ++ [0, 0, 0, 5] ++ List.replicate 108 0

set_option maxRecDepth 8192 in
/-- Closed witness for the amended C2 theorem: at the concrete well-formed
header none of the rejection conditions hold, so by the theorem the
header-level open does not fail. -/
theorem chd_open_reject_iff_witness :
    ¬ (chdOkFile.length < 124 ∨ chdOkFile.take 8 ≠ mcomprHD ∨ readBE32 chdOkFile 12 < 5
        ∨ readBE32 chdOkFile 8 < 124
        ∨ ((chdOkFile.drop 104).take 20).any (fun b => b != 0) = true)
    ∧ ¬ (∃ e, openHeaderChecks chdOkFile = .error e) :=
  ⟨by decide,
    fun hex => absurd ((chd_open_reject_iff chdOkFile).1.mp hex) (by decide)⟩

/-! ## NES header parsing (src/unnamed/part_007, package nes)

`ParseNES` decodes the 16-byte iNES / NES 2.0 header.  The file is a byte
list; sizes are natural numbers. -/

/-- The iNES magic bytes "NES" + 0x1A. -/
def nesMagic : List Nat := [78, 69, 83, 26]

/-- The fields of NESInfo that the parser populates. -/
structure NESInfo where
  prgROMSize : Nat
  chrROMSize : Nat
  prgRAMSize : Nat
  prgNVRAMSize : Nat
  chrRAMSize : Nat
  chrNVRAMSize : Nat
  mapper : Nat
  submapper : Nat
  mirroring : Nat
  fourScreen : Bool
  hasBattery : Bool
  hasTrainer : Bool
  consoleType : Nat
  timingMode : Nat
  expansionDevice : Nat
  vsPPUType : Nat
  vsHardwareType : Nat
  extendedConsoleType : Nat
  miscROMs : Nat
  isNES20 : Bool
  deriving Repr, DecidableEq

/-- ROM size in NES 2.0 exponent-multiplier notation
(part_007 `calculateNES20ROMSize`). -/
def calculateNES20ROMSize (lsb msb unit : Nat) : Nat :=
  if msb < 15 then ((msb <<< 8) ||| lsb) * unit
  else (1 <<< (lsb >>> 2)) * ((lsb &&& 3) * 2 + 1)

/-- RAM size from a NES 2.0 shift count: `64 << shift` when the shift
count is positive, otherwise 0 (part_007 `calculateNES20RAMSize`). -/
def calculateNES20RAMSize (shiftCount : Nat) : Nat :=
  if shiftCount = 0 then 0 else 64 <<< shiftCount

/-- NES 2.0 specific fields (part_007 `parseNES20`). -/
def parseNES20 (header : List Nat) (info : NESInfo) : NESInfo :=
  let flags6 := header.getD 6 0
  let flags7 := header.getD 7 0
  let byte8 := header.getD 8 0
  let byte9 := header.getD 9 0
  let byte10 := header.getD 10 0
  let byte11 := header.getD 11 0
  let byte12 := header.getD 12 0
  let byte13 := header.getD 13 0
  let byte14 := header.getD 14 0
  let byte15 := header.getD 15 0
  let info :=
    { info with
      mapper := ((byte8 &&& 0x0F) <<< 8) ||| (flags7 &&& 0xF0) ||| ((flags6 >>> 4) &&& 0x0F)
      submapper := byte8 >>> 4
      prgROMSize := calculateNES20ROMSize (header.getD 4 0) (byte9 &&& 0x0F) (16 * 1024)
      chrROMSize := calculateNES20ROMSize (header.getD 5 0) ((byte9 >>> 4) &&& 0x0F) (8 * 1024)
      prgRAMSize := calculateNES20RAMSize (byte10 &&& 0x0F)
      prgNVRAMSize := calculateNES20RAMSize ((byte10 >>> 4) &&& 0x0F)
      chrRAMSize := calculateNES20RAMSize (byte11 &&& 0x0F)
      chrNVRAMSize := calculateNES20RAMSize ((byte11 >>> 4) &&& 0x0F)
      timingMode := byte12 &&& 0x03
      miscROMs := byte14 &&& 0x03
      expansionDevice := byte15 &&& 0x3F }
  if info.consoleType = 1 then
    { info with vsPPUType := byte13 &&& 0x0F, vsHardwareType := (byte13 >>> 4) &&& 0x0F }
  else if info.consoleType = 3 then
    { info with extendedConsoleType := byte13 &&& 0x0F }
  else info

/-- iNES 1.0 specific fields (part_007 `parseINES`). -/
def parseINES (header : List Nat) (info : NESInfo) : NESInfo :=
  let flags6 := header.getD 6 0
  let flags7 := header.getD 7 0
  let flags9 := header.getD 9 0
  let prgRAMBanks := if header.getD 8 0 = 0 then 1 else header.getD 8 0
  { info with
    mapper := (flags7 &&& 0xF0) ||| ((flags6 >>> 4) &&& 0x0F)
    prgROMSize := header.getD 4 0 * 16 * 1024
    chrROMSize := header.getD 5 0 * 8 * 1024
    prgRAMSize := prgRAMBanks * 8 * 1024
    timingMode := if flags9 &&& 0x01 ≠ 0 then 1 else 0 }

/-- Embedding of `ParseNES` (part_007 lines 196-242): magic check, common
flags, then the NES 2.0 or the iNES 1.0 branch. -/
def parseNES (file : List Nat) : Except String NESInfo :=
  if file.length < 16 then .error "file too small for NES header"
  else if file.take 4 ≠ nesMagic then .error "not a valid NES ROM: magic mismatch"
  else
    let flags6 := file.getD 6 0
    let flags7 := file.getD 7 0
    let isNES20 := (flags7 &&& 0x0C) = 0x08
    let info : NESInfo :=
      { prgROMSize := 0, chrROMSize := 0, prgRAMSize := 0, prgNVRAMSize := 0
        chrRAMSize := 0, chrNVRAMSize := 0, mapper := 0, submapper := 0
        mirroring := flags6 &&& 0x01
        fourScreen := (flags6 &&& 0x08) ≠ 0
        hasBattery := (flags6 &&& 0x02) ≠ 0
        hasTrainer := (flags6 &&& 0x04) ≠ 0
        consoleType := flags7 &&& 0x03
        timingMode := 0, expansionDevice := 0, vsPPUType := 0, vsHardwareType := 0
        extendedConsoleType := 0, miscROMs := 0
        isNES20 := isNES20 }
    if isNES20 then .ok (parseNES20 file info) else .ok (parseINES file info)

/-- C8 counterexample input: a NES 2.0 header whose byte 10 is zero. -/
def nesCex : List Nat := [78, 69, 83, 26, 1, 1, 0, 8, 0, 0, 0, 0, 0, 0, 0, 0]

/-- C8 counterexample: for this NES 2.0 header with PRG-RAM shift count 0
the parser reports PRG-RAM size 0, not `64 << 0 = 64` as the claim
states. -/
theorem nes20_ram_counterexample :
    (parseNES nesCex).toOption.map (fun i => (i.isNES20, i.prgRAMSize)) = some (true, 0)
    ∧ 64 <<< ((nesCex.getD 10 0) &&& 0x0F) = 64 := by
  decide

theorem parseNES20_prgRAM (header : List Nat) (i : NESInfo) :
    (parseNES20 header i).prgRAMSize = calculateNES20RAMSize (header.getD 10 0 &&& 0x0F) := by
  simp [parseNES20, apply_ite NESInfo.prgRAMSize]

theorem parseNES20_prgNVRAM (header : List Nat) (i : NESInfo) :
    (parseNES20 header i).prgNVRAMSize =
      calculateNES20RAMSize ((header.getD 10 0 >>> 4) &&& 0x0F) := by
  simp [parseNES20, apply_ite NESInfo.prgNVRAMSize]

theorem parseNES20_chrRAM (header : List Nat) (i : NESInfo) :
    (parseNES20 header i).chrRAMSize = calculateNES20RAMSize (header.getD 11 0 &&& 0x0F) := by
  simp [parseNES20, apply_ite NESInfo.chrRAMSize]

theorem parseNES20_chrNVRAM (header : List Nat) (i : NESInfo) :
    (parseNES20 header i).chrNVRAMSize =
      calculateNES20RAMSize ((header.getD 11 0 >>> 4) &&& 0x0F) := by
  simp [parseNES20, apply_ite NESInfo.chrNVRAMSize]

/-- C8 amended: for every NES ROM whose header is NES 2.0 (flags7 bits 2-3
are 0b10), each of the four RAM sizes is `64 << shift` when the
corresponding 4-bit shift count (low and high nibbles of bytes 10 and 11)
is non-zero, and 0 when the shift count is zero. -/
theorem nes20_ram_sizes (file : List Nat) (info : NESInfo)
    (hok : parseNES file = .ok info) (h20 : (file.getD 7 0 &&& 0x0C) = 0x08) :
    info.prgRAMSize =
        (if (file.getD 10 0 &&& 0x0F) = 0 then 0 else 64 <<< (file.getD 10 0 &&& 0x0F))
    ∧ info.prgNVRAMSize =
        (if ((file.getD 10 0 >>> 4) &&& 0x0F) = 0 then 0
          else 64 <<< ((file.getD 10 0 >>> 4) &&& 0x0F))
    ∧ info.chrRAMSize =
        (if (file.getD 11 0 &&& 0x0F) = 0 then 0 else 64 <<< (file.getD 11 0 &&& 0x0F))
    ∧ info.chrNVRAMSize =
        (if ((file.getD 11 0 >>> 4) &&& 0x0F) = 0 then 0
          else 64 <<< ((file.getD 11 0 >>> 4) &&& 0x0F)) := by
  unfold parseNES at hok
  by_cases h1 : file.length < 16
  · rw [if_pos h1] at hok
    exact absurd hok (by simp)
  rw [if_neg h1] at hok
  by_cases h2 : file.take 4 = nesMagic
  case neg =>
    rw [if_pos (by simpa using h2)] at hok
    exact absurd hok (by simp)
  rw [if_neg (by simpa using h2), if_pos h20] at hok
  injection hok with hh
  rw [← hh]
  exact ⟨parseNES20_prgRAM file _, parseNES20_prgNVRAM file _,
    parseNES20_chrRAM file _, parseNES20_chrNVRAM file _⟩

/-- Closed witness for the amended C8 theorem at a concrete NES 2.0 header
with shift counts 1, 2, 0 and 3 (sizes 128, 256, 0 and 512). -/
theorem nes20_ram_sizes_witness :
    ∃ info, parseNES [78, 69, 83, 26, 1, 1, 0, 8, 0, 0, 0x21, 0x30, 0, 0, 0, 0] = .ok info
      ∧ info.prgRAMSize = 128 ∧ info.prgNVRAMSize = 256
      ∧ info.chrRAMSize = 0 ∧ info.chrNVRAMSize = 512 := by
  have hsome : (parseNES [78, 69, 83, 26, 1, 1, 0, 8, 0, 0, 0x21, 0x30, 0, 0, 0, 0]).toOption.isSome
      = true := by decide
  cases hok : parseNES [78, 69, 83, 26, 1, 1, 0, 8, 0, 0, 0x21, 0x30, 0, 0, 0, 0] with
  | error e =>
    rw [hok] at hsome
    exact absurd hsome (by simp [Except.toOption])
  | ok info =>
    have h := nes20_ram_sizes [78, 69, 83, 26, 1, 1, 0, 8, 0, 0, 0x21, 0x30, 0, 0, 0, 0]
      info hok (by decide)
    exact ⟨info, rfl, h.1.trans (by decide), h.2.1.trans (by decide),
      h.2.2.1.trans (by decide), h.2.2.2.trans (by decide)⟩

/-! ## Sector translator (src/lib/romident/bin/sector.go)

`SectorReader` exposes a logical 2048-byte-per-sector view over a raw
image.  The underlying reader is abstracted as a total byte oracle
`u : Nat → Nat` (ReadAt on the wrapped reader fills the requested range
from `u` and does not fail); the struct fields become parameters. -/

/-- Logical size computed by `NewSectorReader` (sector.go lines 30-32):
number of whole physical sectors times 2048. -/
def sectorReaderSize (physicalSector physicalSize : Nat) : Nat :=
  physicalSize / physicalSector * 2048

/-- The copy loop of `SectorReader.ReadAt` (sector.go lines 48-69).
`remaining` is `len(p) - n` and `lo` is the logical offset `off + n`;
the returned list is the bytes written into `p`. -/
def sectorReadLoop (u : Nat → Nat) (phys dataOff size remaining lo : Nat) : List Nat :=
  if h : remaining = 0 ∨ size ≤ lo then []
  else
    let osec := lo % 2048
    let btr := min remaining (min (2048 - osec) (size - lo))
    ((List.range btr).map fun k => u (lo / 2048 * phys + dataOff + osec + k))
      ++ sectorReadLoop u phys dataOff size (remaining - btr) (lo + btr)
termination_by remaining
decreasing_by
  simp_wf
  omega

/-- Embedding of `SectorReader.ReadAt` (sector.go lines 43-75): EOF for an
offset at or past the logical size, then the copy loop; a short read
reports EOF.  The error component is `some ()` for `io.EOF`. -/
def sectorReadAt (u : Nat → Nat) (phys dataOff physSize off pLen : Nat) :
    List Nat × Option Unit :=
  if sectorReaderSize phys physSize ≤ off then ([], some ())
  else
    (sectorReadLoop u phys dataOff (sectorReaderSize phys physSize) pLen off,
      if (sectorReadLoop u phys dataOff (sectorReaderSize phys physSize) pLen off).length < pLen
        then some () else none)

theorem rangeMap_getD (f : Nat → Nat) (n k : Nat) (hk : k < n) :
    ((List.range n).map f).getD k 0 = f k := by
  rw [List.getD_eq_getElem?_getD]
  rw [List.getElem?_eq_getElem (by simpa using hk)]
  simp

theorem sectorReadLoop_length (u : Nat → Nat) (phys dataOff size : Nat) :
    ∀ remaining lo, (sectorReadLoop u phys dataOff size remaining lo).length
      = min remaining (size - lo) := by
  intro remaining
  induction remaining using Nat.strong_induction_on with
  | _ remaining ih =>
    intro lo
    rw [sectorReadLoop]
    split_ifs with h
    · simp
      omega
    · push_neg at h
      simp only [List.length_append, List.length_map, List.length_range]
      have hmod : lo % 2048 < 2048 := Nat.mod_lt lo (by norm_num)
      have hbtr : 0 < min remaining (min (2048 - lo % 2048) (size - lo)) := by omega
      rw [ih _ (by omega)]
      omega

theorem sectorReadLoop_getD (u : Nat → Nat) (phys dataOff size : Nat) :
    ∀ remaining lo k, k < (sectorReadLoop u phys dataOff size remaining lo).length →
      (sectorReadLoop u phys dataOff size remaining lo).getD k 0
        = u ((lo + k) / 2048 * phys + dataOff + (lo + k) % 2048) := by
  intro remaining
  induction remaining using Nat.strong_induction_on with
  | _ remaining ih =>
    intro lo k hk
    rw [sectorReadLoop_length] at hk
    rw [sectorReadLoop]
    split_ifs with h
    · exfalso
      omega
    · push_neg at h
      have hmod : lo % 2048 < 2048 := Nat.mod_lt lo (by norm_num)
      by_cases hlt : k < min remaining (min (2048 - lo % 2048) (size - lo))
      · rw [List.getD_append _ _ _ _ (by simp only [List.length_map, List.length_range]; exact hlt)]
        rw [rangeMap_getD _ _ _ hlt]
        have hdiv : (lo + k) / 2048 = lo / 2048 := by omega
        have hmod2 : (lo + k) % 2048 = lo % 2048 + k := by omega
        rw [hdiv, hmod2]
        ring_nf
      · push_neg at hlt
        rw [List.getD_append_right _ _ _ _
          (by simp only [List.length_map, List.length_range]; exact hlt)]
        simp only [List.length_map, List.length_range]
        have hbound : k - min remaining (min (2048 - lo % 2048) (size - lo))
            < (sectorReadLoop u phys dataOff size
                (remaining - min remaining (min (2048 - lo % 2048) (size - lo)))
                (lo + min remaining (min (2048 - lo % 2048) (size - lo)))).length := by
          rw [sectorReadLoop_length]
          omega
        have hbtr : 0 < min remaining (min (2048 - lo % 2048) (size - lo)) := by omega
        have hrec := ih _ (by omega) _ _ hbound
        rw [hrec]
        have harith : lo + min remaining (min (2048 - lo % 2048) (size - lo))
            + (k - min remaining (min (2048 - lo % 2048) (size - lo))) = lo + k := by
          omega
        rw [harith]

/-- C4: for every sector translator configured with a physical sector
size, a data offset and a physical size, the reported logical size is
`(physical_size / physical_sector_size) * 2048`, a read at a logical
offset within the logical size returns `min pLen (size - off)` bytes, and
the byte at output position `k` is the underlying byte at physical offset
`((off+k) / 2048) * physical_sector_size + data_offset + ((off+k) % 2048)`
— also when the read straddles sector boundaries. -/
theorem sector_translator_correct (u : Nat → Nat) (phys dataOff physSize off pLen k : Nat)
    (hphys : 0 < phys) :
    sectorReaderSize phys physSize = physSize / phys * 2048
    ∧ (off < sectorReaderSize phys physSize →
        (sectorReadAt u phys dataOff physSize off pLen).1.length
          = min pLen (sectorReaderSize phys physSize - off))
    ∧ (k < (sectorReadAt u phys dataOff physSize off pLen).1.length →
        (sectorReadAt u phys dataOff physSize off pLen).1.getD k 0
          = u ((off + k) / 2048 * phys + dataOff + (off + k) % 2048)) := by
  refine ⟨rfl, ?_, ?_⟩
  · intro hoff
    unfold sectorReadAt
    rw [if_neg (by omega)]
    exact sectorReadLoop_length u phys dataOff _ pLen off
  · intro hk
    unfold sectorReadAt at hk ⊢
    split_ifs at hk ⊢ with h h2
    · simp at hk
    · exact sectorReadLoop_getD u phys dataOff _ pLen off k hk
    · exact sectorReadLoop_getD u phys dataOff _ pLen off k hk

/-- Closed witness for the sector-translator theorem: a 2-sector raw
MODE2 image (physical sector 2352, data offset 24), with a 16-byte read
at logical offset 2040 straddling the sector boundary; output byte 10 is
the underlying byte at the translated physical offset. -/
theorem sector_translator_correct_witness :
    (sectorReadAt (fun i => i % 256) 2352 24 4704 2040 16).1.getD 10 0
      = ((2040 + 10) / 2048 * 2352 + 24 + (2040 + 10) % 2048) % 256 := by
  have h := sector_translator_correct (fun i => i % 256) 2352 24 4704 2040 16 10 (by norm_num)
  have hlen := h.2.1 (by norm_num [sectorReaderSize])
  have hk : (10 : Nat) < (sectorReadAt (fun i => i % 256) 2352 24 4704 2040 16).1.length := by
    rw [hlen]
    norm_num [sectorReaderSize]
  exact h.2.2 hk

/-! ## CHD user-data view (src/lib/format/chd/root.go, OpenUserData and
sectorReader)

`OpenUserData` wraps an opened CD-ROM CHD in a `sectorReader` translating
logical 2048-byte sectors onto raw sectors.  The hunk-level `readSector`
is abstracted as an oracle returning the raw bytes of a sector. -/

/-- Go error values distinguished by the CHD readers: `io.EOF` versus any
other error message. -/
inductive GoErr where
  | eof : GoErr
  | msg : String → GoErr
  deriving Repr, DecidableEq

/-- IsCDROM (root.go lines 173-177): unit size 2448 or 2352. -/
def chdIsCDROM (h : CHDInfo) : Bool :=
  h.unitBytes == 2448 || h.unitBytes == 2352

/-- The sector-translation parameters chosen by `OpenUserData`
(root.go lines 370-381) for a successfully opened CHD: for a CD-ROM CHD,
`some (sectorSize, dataOffset, logicalSize)` with the raw unit size, data
offset 16 and `(logicalBytes / unitBytes) * 2048` logical bytes;
for any other CHD `none` (the raw reader is returned unchanged). -/
def openUserDataParams (h : CHDInfo) : Option (Nat × Nat × Nat) :=
  if chdIsCDROM h then some (h.unitBytes, 16, h.logicalBytes / h.unitBytes * 2048)
  else none

/-- The copy loop of the chd `sectorReader.ReadAt` (root.go lines
397-435).  `remaining` is `len(p) - n`; `acc` collects the bytes written
into `p`.  `readSector` abstracts `c.reader.readSector`. -/
def chdSectorReadLoop (readSector : Nat → Except GoErr (List Nat)) (dataOffset : Nat)
    (off remaining n : Nat) (acc : List Nat) : Nat × List Nat × Option GoErr :=
  if hrem : remaining = 0 then (n, acc, none)
  else
    match readSector ((off + n) / 2048) with
    | .error e => if n > 0 then (n, acc, none) else (0, acc, some e)
    | .ok sectorData =>
      if hst : sectorData.length ≤ dataOffset + (off + n) % 2048 then
        if n > 0 then (n, acc, none) else (0, acc, some .eof)
      else
        let dataStart := dataOffset + (off + n) % 2048
        let dataEnd := min (dataOffset + 2048) sectorData.length
        let btc := min (dataEnd - dataStart) remaining
        chdSectorReadLoop readSector dataOffset off (remaining - btc) (n + btc)
          (acc ++ (sectorData.drop dataStart).take btc)
termination_by remaining
decreasing_by
  simp_wf
  have : (off + n) % 2048 < 2048 := Nat.mod_lt _ (by norm_num)
  omega

/-- Embedding of the chd `sectorReader.ReadAt` (root.go lines 396-438). -/
def chdSectorReadAt (readSector : Nat → Except GoErr (List Nat)) (dataOffset : Nat)
    (off pLen : Nat) : Nat × List Nat × Option GoErr :=
  chdSectorReadLoop readSector dataOffset off pLen 0 []

theorem drop_take_one (l : List Nat) (n : Nat) (hn : n < l.length) :
    (l.drop n).take 1 = [l.getD n 0] := by
  rw [List.drop_eq_getElem_cons hn, List.take_succ_cons, List.take_zero,
    List.getD_eq_getElem?_getD, List.getElem?_eq_getElem hn]
  rfl

theorem chdSectorReadAt_first_byte (readSector : Nat → Except GoErr (List Nat))
    (dOff : Nat) (s : Nat) (data : List Nat) (hs : readSector s = .ok data)
    (hlen : dOff < data.length) :
    (chdSectorReadAt readSector dOff (2048 * s) 1).2.1 = [data.getD dOff 0] := by
  have hmod : (2048 * s + 0) % 2048 = 0 := by omega
  rw [chdSectorReadAt, chdSectorReadLoop, dif_neg (by norm_num : ¬ (1 : Nat) = 0),
    show (2048 * s + 0) / 2048 = s from by omega, hs]
  dsimp only
  rw [hmod]
  rw [dif_neg (by omega : ¬ (data.length ≤ dOff + 0))]
  have hbtc : min (min (dOff + 2048) data.length - (dOff + 0)) 1 = 1 := by omega
  rw [hbtc]
  rw [chdSectorReadLoop, dif_pos (by norm_num : (1 : Nat) - 1 = 0)]
  rw [show dOff + 0 = dOff from rfl, drop_take_one data dOff hlen]
  rfl

/-- C5 counterexample input: a CD-ROM CHD header with unit size 2352. -/
def cdChdHeader : CHDInfo :=
  { version := 5, compressors := [0, 0, 0, 0], logicalBytes := 4704, mapOffset := 0
    metaOffset := 0, hunkBytes := 4704, unitBytes := 2352, totalHunks := 1
    rawSHA1 := "", sha1 := "", parentSHA1 := "" }

/-- C5 counterexample raw sector: 17 bytes, byte 16 is 99 (and byte 24
does not exist, so it reads back as the default 0). -/
def cdCexSector : List Nat := [0, 0, 0, 0, 0, 0, 0, 0, 0, 0, 0, 0, 0, 0, 0, 0, 99]

/-- C5 counterexample: for a CD-ROM CHD (unit 2352) the user-data view is
built with data offset 16, not 24; reading logical offset 0 of sector 0
returns the raw sector byte at offset 16 (value 99), not the byte at
offset 24. -/
theorem chd_userdata_offset_counterexample :
    openUserDataParams cdChdHeader = some (2352, 16, 4096)
    ∧ (16 : Nat) ≠ 24
    ∧ (chdSectorReadAt (fun _ => .ok cdCexSector) 16 (2048 * 0) 1).2.1 = [99]
    ∧ cdCexSector.getD 24 0 ≠ 99 := by
  refine ⟨by decide, by decide, ?_, by decide⟩
  rw [chdSectorReadAt_first_byte (fun _ => .ok cdCexSector) 16 0 cdCexSector rfl (by decide)]
  decide

/-- C5 amended: when a CD-ROM CHD (unit size 2352 or 2448) is opened as a
logical 2048-byte-per-sector user-data view, the translation uses a data
offset of 16 bytes within each raw physical sector: logical offset 0 of
each sector maps to byte 16 of the corresponding raw sector, and the
logical size is `(logicalBytes / unitBytes) * 2048`. -/
theorem chd_userdata_offset (h : CHDInfo) (hcd : chdIsCDROM h = true)
    (readSector : Nat → Except GoErr (List Nat)) (s : Nat) (data : List Nat)
    (hs : readSector s = .ok data) (hlen : 17 ≤ data.length) :
    openUserDataParams h = some (h.unitBytes, 16, h.logicalBytes / h.unitBytes * 2048)
    ∧ (chdSectorReadAt readSector 16 (2048 * s) 1).2.1 = [data.getD 16 0] := by
  constructor
  · rw [openUserDataParams, if_pos hcd]
  · exact chdSectorReadAt_first_byte readSector 16 s data hs (by omega)

/-- Closed witness for the amended C5 theorem at a concrete CD-ROM header
and a concrete raw sector holding 7 at byte 16. -/
theorem chd_userdata_offset_witness :
    openUserDataParams cdChdHeader = some (cdChdHeader.unitBytes, 16,
        cdChdHeader.logicalBytes / cdChdHeader.unitBytes * 2048)
    ∧ (chdSectorReadAt (fun _ => .ok (List.replicate 16 0 ++ [7, 8])) 16 (2048 * 1) 1).2.1
        = [(List.replicate 16 0 ++ [7, 8]).getD 16 0] :=
  chd_userdata_offset cdChdHeader (by decide) (fun _ => .ok (List.replicate 16 0 ++ [7, 8]))
    1 (List.replicate 16 0 ++ [7, 8]) rfl (by decide)

/-! ## Format registry and dispatcher (src/lib/identify/rom.go,
src/unnamed/part_001, src/unnamed/part_002)

The `Format` tags come from the identify package (part_001).  The
extension registry table is the one of `Detector.CandidatesByExtension`
(part_002); the identify package keeps an identical private copy that is
not among the provided sources.  The per-candidate identification
functions and magic probes are abstracted: each candidate entry carries
the outcome its `Identify` function or magic verification would produce
on the fixed input file. -/

inductive Format where
  | unknown | chd | xiso | xbe | iso9660 | zip | gba | z64 | v64 | n64
  | gb | md | smd | nds | nes | snes | gcm | rvz | sms | pkg | threeDS
  deriving Repr, DecidableEq

/-- One candidate row as the dispatcher sees it: the format, the outcome
of its `Identify` function on the input (`none` when the registry has no
identify function; `some (.ok g)` success with optional game info;
`some (.error _)` failure), and the magic-verification outcome. -/
structure FormatEntry (G : Type) where
  format : Format
  identify : Option (Except String (Option G))
  verifies : Bool

/-- Embedding of the candidate loop of `identifyGame` (rom.go lines
222-253): first candidate whose identify function succeeds, or whose
magic verifies when it has no identify function, wins; everything else
falls through to the next candidate; exhaustion yields `unknown` with no
game info. -/
def identifyGame {G : Type} : List (FormatEntry G) → Format × Option G
  | [] => (.unknown, none)
  | e :: rest =>
    match e.identify with
    | none => if e.verifies then (e.format, none) else identifyGame rest
    | some (.ok g) => (e.format, g)
    | some (.error _) => identifyGame rest

/-- A candidate that fails: its identify function errors, or it has no
identify function and its magic does not verify. -/
def entryFails {G : Type} (e : FormatEntry G) : Prop :=
  (∃ msg, e.identify = some (.error msg)) ∨ (e.identify = none ∧ e.verifies = false)

/-- The candidate loop of `Detector.Detect` (part_002 lines 174-178). -/
def detectLoop (verify : Format → Bool) : List Format → Format
  | [] => .unknown
  | c :: rest => if verify c then c else detectLoop verify rest

/-- Embedding of `Detector.Detect` (part_002 lines 166-182): empty
candidate list or no verifying candidate gives `unknown`; the returned
error is always nil (`none`). -/
def detect (verify : Format → Bool) (candidates : List Format) : Format × Option String :=
  if candidates.length = 0 then (.unknown, none)
  else (detectLoop verify candidates, none)

theorem identifyGame_skip {G : Type} (e : FormatEntry G) (rest : List (FormatEntry G))
    (hf : entryFails e) : identifyGame (e :: rest) = identifyGame rest := by
  rcases hf with ⟨msg, hmsg⟩ | ⟨hnone, hver⟩
  · simp [identifyGame, hmsg]
  · simp [identifyGame, hnone, hver]

theorem identifyGame_all_fail {G : Type} :
    ∀ entries : List (FormatEntry G), (∀ e ∈ entries, entryFails e) →
      identifyGame entries = (.unknown, none)
  | [], _ => rfl
  | e :: rest, h => by
    rw [identifyGame_skip e rest (h e (by simp))]
    exact identifyGame_all_fail rest (fun x hx => h x (by simp [hx]))

theorem detectLoop_all_false (verify : Format → Bool) :
    ∀ candidates : List Format, (∀ c ∈ candidates, verify c = false) →
      detectLoop verify candidates = .unknown
  | [], _ => rfl
  | c :: rest, h => by
    rw [detectLoop, if_neg (by simp [h c (by simp)])]
    exact detectLoop_all_false verify rest (fun x hx => h x (by simp [hx]))

/-- C6: the dispatcher tries candidates in order and returns the first
success — a failing candidate never blocks a later one; an identify
success returns its format and game info, and a magic-only success
returns the format with no game info; an empty candidate list, or one
whose candidates all fail, yields `unknown` with absent identification;
and `Detector.Detect` likewise skips non-verifying candidates, returns
the first verifying one, yields `unknown` when nothing verifies, and
never returns an error. -/
theorem dispatcher_first_success_wins {G : Type} (e : FormatEntry G)
    (rest entries : List (FormatEntry G)) (g : Option G)
    (verify : Format → Bool) (c : Format) (cs candidates : List Format)
    (hall : ∀ x ∈ entries, entryFails x)
    (hvall : ∀ x ∈ candidates, verify x = false) :
    identifyGame ([] : List (FormatEntry G)) = (.unknown, none)
    ∧ (entryFails e → identifyGame (e :: rest) = identifyGame rest)
    ∧ (e.identify = some (.ok g) → identifyGame (e :: rest) = (e.format, g))
    ∧ (e.identify = none → e.verifies = true → identifyGame (e :: rest) = (e.format, none))
    ∧ identifyGame entries = (.unknown, none)
    ∧ (detect verify candidates).2 = none
    ∧ detect verify candidates = (.unknown, none)
    ∧ (verify c = false → detectLoop verify (c :: cs) = detectLoop verify cs)
    ∧ (verify c = true → detectLoop verify (c :: cs) = c) := by
  refine ⟨rfl, identifyGame_skip e rest, ?_, ?_, identifyGame_all_fail entries hall,
    ?_, ?_, ?_, ?_⟩
  · intro hid
    simp [identifyGame, hid]
  · intro hid hver
    simp [identifyGame, hid, hver]
  · unfold detect
    split_ifs <;> rfl
  · unfold detect
    split_ifs with hlen
    · rfl
    · rw [detectLoop_all_false verify candidates hvall]
  · intro hv
    simp [detectLoop, hv]
  · intro hv
    simp [detectLoop, hv]

/-- Closed witness for the dispatcher theorem: a failing CHD candidate
followed by a succeeding ISO9660 candidate, with game info 7. -/
theorem dispatcher_first_success_wins_witness :
    identifyGame [FormatEntry.mk (G := Nat) Format.chd (some (.error "bad")) false,
        FormatEntry.mk Format.iso9660 (some (.ok (some 7))) false]
      = (Format.iso9660, some 7) := by
  have h := dispatcher_first_success_wins
    (FormatEntry.mk (G := Nat) Format.chd (some (.error "bad")) false)
    [FormatEntry.mk Format.iso9660 (some (.ok (some 7))) false]
    [] (some 7) (fun _ => false) Format.unknown [] []
    (by intro x hx; exact absurd hx (by simp))
    (by intro x hx; exact absurd hx (by simp))
  rw [h.2.1 (Or.inl ⟨"bad", rfl⟩)]
  have h2 := dispatcher_first_success_wins
    (FormatEntry.mk (G := Nat) Format.iso9660 (some (.ok (some 7))) false)
    [] [] (some 7) (fun _ => false) Format.unknown [] []
    (by intro x hx; exact absurd hx (by simp))
    (by intro x hx; exact absurd hx (by simp))
  exact h2.2.2.1 rfl

/-! ## ZIP default/fast-mode identification (src/lib/identify/rom.go,
identifyZIP lines 128-148)

In default and fast hash mode a ZIP entry is identified from metadata
only.  The extension registry used here follows the table of
`Detector.CandidatesByExtension` (src/unnamed/part_002), which the spec
documents for the identify package registry as well. -/

/-- Fingerprint kinds (part_001 HashType). -/
inductive HashType where
  | sha1 | md5 | crc32 | zipCrc32 | chdUncompressedSHA1 | chdCompressedSHA1
  deriving Repr, DecidableEq

/-- An identified item: name, size, format, fingerprint map and optional
game identification (part_001 Item; game info content is irrelevant here
and represented by `Unit`). -/
structure Item where
  name : String
  size : Nat
  format : Format
  hashes : List (HashType × String)
  game : Option Unit
  deriving Repr, DecidableEq

/-- A ZIP central-directory entry as the identify code consumes it:
name, uncompressed size and CRC-32. -/
structure ZipEntry where
  name : String
  size : Nat
  crc32 : Nat
  deriving Repr, DecidableEq

/-- Scan of the reversed character list used by `filepath.Ext`: stop at a
path separator, return the suffix from the final dot (inclusive). -/
def fileExtGo : List Char → List Char → List Char
  | [], _ => []
  | c :: rest, acc =>
    if c = '/' then [] else if c = '.' then '.' :: acc else fileExtGo rest (c :: acc)

/-- ASCII lowercasing of one character (strings.ToLower on the ASCII
extensions the registry uses). -/
def asciiLower (c : Char) : Char :=
  if 65 ≤ c.toNat ∧ c.toNat ≤ 90 then Char.ofNat (c.toNat + 32) else c

/-- The lowercased extension of a filename as a character list, with the
leading dot; empty when the final path element has no dot
(strings.ToLower of filepath.Ext). -/
def lowerExt (name : String) : List Char :=
  (fileExtGo name.data.reverse []).map asciiLower

/-- The registry table mapping a lowercased extension to candidate
formats (part_002 CandidatesByExtension, lines 53-92); generic
extensions have no candidates. -/
def candidatesByExtension (name : String) : List Format :=
  let ext := lowerExt name
  if ext = ['.', 'c', 'h', 'd'] then [.chd]
  else if ext = ['.', 'z', 'i', 'p'] then [.zip]
  else if ext = ['.', 'i', 's', 'o'] then [.xiso, .iso9660]
  else if ext = ['.', 'x', 'i', 's', 'o'] then [.xiso]
  else if ext = ['.', 'x', 'b', 'e'] then [.xbe]
  else if ext = ['.', 'g', 'b', 'a'] then [.gba]
  else if ext = ['.', 'z', '6', '4'] then [.z64]
  else if ext = ['.', 'v', '6', '4'] then [.v64]
  else if ext = ['.', 'n', '6', '4'] then [.n64]
  else if ext = ['.', 'g', 'b'] ∨ ext = ['.', 'g', 'b', 'c'] then [.gb]
  else if ext = ['.', 'm', 'd'] ∨ ext = ['.', 'g', 'e', 'n'] then [.md]
  else if ext = ['.', 's', 'm', 'd'] then [.smd]
  else if ext = ['.', 'n', 'd', 's'] ∨ ext = ['.', 'd', 's', 'i'] ∨ ext = ['.', 'i', 'd', 's']
    then [.nds]
  else if ext = ['.', 'n', 'e', 's'] then [.nes]
  else if ext = ['.', 's', 'f', 'c'] ∨ ext = ['.', 's', 'm', 'c'] then [.snes]
  else []

/-- The format recorded for a default-mode ZIP entry (rom.go lines
130-134): the single candidate when the extension has exactly one,
otherwise `unknown`. -/
def zipDetectedFormat (candidates : List Format) : Format :=
  match candidates with
  | [c] => c
  | _ => Format.unknown

/-- Eight lowercase hex digits of a 32-bit value (`fmt.Sprintf %08x`). -/
def hex8 (v : Nat) : String :=
  String.mk [hexDigitChar (v / 268435456 % 16), hexDigitChar (v / 16777216 % 16),
    hexDigitChar (v / 1048576 % 16), hexDigitChar (v / 65536 % 16),
    hexDigitChar (v / 4096 % 16), hexDigitChar (v / 256 % 16),
    hexDigitChar (v / 16 % 16), hexDigitChar (v % 16)]

/-- Embedding of the default/fast-mode branch of `identifyZIP` for one
entry (rom.go lines 129-147): extension-deduced format, `zip-crc32`
fingerprint from the central directory when the CRC-32 is non-zero, no
game identification. -/
def zipFastItem (entry : ZipEntry) : Item :=
  let candidates := candidatesByExtension entry.name
  let detectedFormat := zipDetectedFormat candidates
  let hashes := if entry.crc32 ≠ 0 then [(HashType.zipCrc32, hex8 entry.crc32)] else []
  { name := entry.name, size := entry.size, format := detectedFormat
    hashes := hashes, game := none }

theorem zipDetectedFormat_single (c : Format) : zipDetectedFormat [c] = c := rfl

theorem zipDetectedFormat_not_single (l : List Format) (h : l.length ≠ 1) :
    zipDetectedFormat l = .unknown := by
  match l with
  | [] => rfl
  | [c] => simp at h
  | a :: b :: t => rfl

/-- C7 counterexample: a ZIP entry whose central-directory CRC-32 is zero
receives no fingerprint at all, so the emitted item does not carry the
`zip-crc32` fingerprint the claim promises for every entry. -/
theorem zip_fastmode_crc_counterexample :
    (zipFastItem { name := "a.nes", size := 5, crc32 := 0 }).hashes = []
    ∧ (zipFastItem { name := "a.nes", size := 5, crc32 := 0 }).format = Format.nes := by
  constructor
  · rfl
  · decide

/-- C7 amended: every default-mode ZIP item carries exactly the entry
name, the uncompressed size, the format deduced from the extension only
when it has exactly one candidate (ambiguous extensions such as `.iso`
yield `unknown`), no game identification, and — when the
central-directory CRC-32 is non-zero — a single `zip-crc32` fingerprint
equal to the CRC-32 as 8 lowercase hex digits; an entry whose CRC-32 is
zero carries no fingerprint. -/
theorem zip_fastmode_item (entry : ZipEntry) (c : Format)
    (hc : candidatesByExtension entry.name = [c]) :
    (zipFastItem entry).name = entry.name
    ∧ (zipFastItem entry).size = entry.size
    ∧ (zipFastItem entry).game = none
    ∧ (zipFastItem entry).format = c
    ∧ (∀ e2 : ZipEntry, (candidatesByExtension e2.name).length ≠ 1 →
        (zipFastItem e2).format = .unknown)
    ∧ (entry.crc32 ≠ 0 → (zipFastItem entry).hashes = [(HashType.zipCrc32, hex8 entry.crc32)])
    ∧ (entry.crc32 = 0 → (zipFastItem entry).hashes = [])
    ∧ candidatesByExtension "disc.iso" = [Format.xiso, Format.iso9660]
    ∧ zipDetectedFormat (candidatesByExtension "disc.iso") = Format.unknown := by
  refine ⟨rfl, rfl, rfl, ?_, ?_, ?_, ?_, by decide, by decide⟩
  · show zipDetectedFormat (candidatesByExtension entry.name) = c
    rw [hc]
    exact zipDetectedFormat_single c
  · intro e2 h2
    show zipDetectedFormat (candidatesByExtension e2.name) = .unknown
    exact zipDetectedFormat_not_single _ h2
  · intro hnz
    show (if entry.crc32 ≠ 0 then [(HashType.zipCrc32, hex8 entry.crc32)] else []) = _
    rw [if_pos hnz]
  · intro hz
    show (if entry.crc32 ≠ 0 then [(HashType.zipCrc32, hex8 entry.crc32)] else []) = []
    rw [if_neg (by simp [hz])]

/-- Closed witness for the amended C7 theorem at a concrete `.gba` entry
with CRC-32 0xDEADBEEF. -/
theorem zip_fastmode_item_witness :
    (zipFastItem { name := "AGB_Rogue.gba", size := 65536, crc32 := 0xDEADBEEF }).format
        = Format.gba
    ∧ (zipFastItem { name := "AGB_Rogue.gba", size := 65536, crc32 := 0xDEADBEEF }).hashes
        = [(HashType.zipCrc32, hex8 0xDEADBEEF)] := by
  have h := zip_fastmode_item { name := "AGB_Rogue.gba", size := 65536, crc32 := 0xDEADBEEF }
    Format.gba (by decide)
  exact ⟨h.2.2.2.1, h.2.2.2.2.2.1 (by decide)⟩

/-! ## CHD hunk resolution and cache (src/lib/format/chd/root.go,
Reader.readHunk lines 262-333 and Reader.ReadAt lines 216-259)

The file behind the reader is abstracted by two oracles: reading an
uncompressed hunk at a file offset, and reading-plus-decompressing a
compressed hunk (slot, offset, length).  Byte buffers carry a ghost
identity: every Go allocation (`make`, the `append([]byte(nil), ...)`
copy, a decompressor result) yields a fresh id, so the aliasing
distinctions of the source are visible in the embedding. -/

/-- The immutable data behind a chd Reader. -/
structure ChdFile where
  entries : List MapEntry
  hunkBytes : Nat
  logicalBytes : Nat
  readUncompressed : Nat → Except String (List Nat)
  decompress : Nat → Nat → Nat → Except String (List Nat)

/-- The mutable hunk cache: an association from hunk index to buffer id
and content, plus the ghost allocation counter. -/
structure CacheState where
  cache : List (Nat × Nat × List Nat)
  nextId : Nat

/-- The state of a freshly opened Reader: empty cache. -/
def openCacheState : CacheState := { cache := [], nextId := 0 }

/-- Association-list lookup, the `r.hunkCache[hunkNum]` map access. -/
def cacheLookup (cache : List (Nat × Nat × List Nat)) (hunkNum : Nat) :
    Option (Nat × List Nat) :=
  match cache with
  | [] => none
  | (k, b) :: rest => if k = hunkNum then some b else cacheLookup rest hunkNum

/-- The tail of `readHunk` (root.go lines 325-332): on success allocate
the result buffer id and cache the hunk when the cache holds fewer than
32 entries; error results are returned unchanged (Go returns early). -/
def finishHunk (res : Except String (List Nat) × CacheState) (hunkNum : Nat) :
    Except String (Nat × List Nat) × CacheState :=
  match res with
  | (.error e, s2) => (.error e, s2)
  | (.ok data, s2) =>
    (.ok (s2.nextId, data),
      { cache :=
          if s2.cache.length < 32 then (hunkNum, s2.nextId, data) :: s2.cache else s2.cache
        nextId := s2.nextId + 1 })

/-- Embedding of `Reader.readHunk` (root.go lines 262-333): cache lookup,
range check, then the compression-type dispatch — uncompressed read,
codec decompression, self-reference (rejecting forward references and
copying the referent bytes into a fresh buffer), parent reference
(unsupported) or unknown type — followed by the caching tail. -/
def readHunk (f : ChdFile) (s : CacheState) (hunkNum : Nat) :
    Except String (Nat × List Nat) × CacheState :=
  match cacheLookup s.cache hunkNum with
  | some b => (.ok b, s)
  | none =>
    if f.entries.length ≤ hunkNum then (.error "hunk out of range", s)
    else if (f.entries.getD hunkNum (MapEntry.mk 0 0 0 0)).compression = 4 then
      finishHunk
        (f.readUncompressed (f.entries.getD hunkNum (MapEntry.mk 0 0 0 0)).offset, s) hunkNum
    else if (f.entries.getD hunkNum (MapEntry.mk 0 0 0 0)).compression ≤ 3 then
      finishHunk
        (f.decompress (f.entries.getD hunkNum (MapEntry.mk 0 0 0 0)).compression
          (f.entries.getD hunkNum (MapEntry.mk 0 0 0 0)).offset
          (f.entries.getD hunkNum (MapEntry.mk 0 0 0 0)).length, s) hunkNum
    else if (f.entries.getD hunkNum (MapEntry.mk 0 0 0 0)).compression = 5 then
      if hunkNum ≤ (f.entries.getD hunkNum (MapEntry.mk 0 0 0 0)).offset % 4294967296 then
        (.error "forward self-reference", s)
      else
        finishHunk
          (match readHunk f s ((f.entries.getD hunkNum (MapEntry.mk 0 0 0 0)).offset
              % 4294967296) with
            | (.ok (_, data), s2) => (.ok data, s2)
            | (.error e, s2) => (.error ("read self-referenced hunk: " ++ e), s2))
          hunkNum
    else if (f.entries.getD hunkNum (MapEntry.mk 0 0 0 0)).compression = 6 then
      (.error "parent CHD references not supported", s)
    else (.error "unknown compression type", s)
termination_by hunkNum
decreasing_by
  simp_wf
  simp only [List.getD, List.get?_eq_getElem?] at *
  omega

/-- The cache-free resolution of a hunk: what `readHunk` computes for a
hunk, with the cache and the buffer identities erased. -/
def resolveHunk (f : ChdFile) (hunkNum : Nat) : Except String (List Nat) :=
  if f.entries.length ≤ hunkNum then .error "hunk out of range"
  else if (f.entries.getD hunkNum (MapEntry.mk 0 0 0 0)).compression = 4 then
    f.readUncompressed (f.entries.getD hunkNum (MapEntry.mk 0 0 0 0)).offset
  else if (f.entries.getD hunkNum (MapEntry.mk 0 0 0 0)).compression ≤ 3 then
    f.decompress (f.entries.getD hunkNum (MapEntry.mk 0 0 0 0)).compression
      (f.entries.getD hunkNum (MapEntry.mk 0 0 0 0)).offset
      (f.entries.getD hunkNum (MapEntry.mk 0 0 0 0)).length
  else if (f.entries.getD hunkNum (MapEntry.mk 0 0 0 0)).compression = 5 then
    if hunkNum ≤ (f.entries.getD hunkNum (MapEntry.mk 0 0 0 0)).offset % 4294967296 then
      .error "forward self-reference"
    else
      match resolveHunk f ((f.entries.getD hunkNum (MapEntry.mk 0 0 0 0)).offset
          % 4294967296) with
      | .ok data => .ok data
      | .error e => .error ("read self-referenced hunk: " ++ e)
  else if (f.entries.getD hunkNum (MapEntry.mk 0 0 0 0)).compression = 6 then
    .error "parent CHD references not supported"
  else .error "unknown compression type"
termination_by hunkNum
decreasing_by
  simp_wf
  simp only [List.getD, List.get?_eq_getElem?] at *
  omega

/-- Cache coherence: every cached hunk holds exactly the bytes its
cache-free resolution produces. -/
def cacheOK (f : ChdFile) (s : CacheState) : Prop :=
  ∀ p ∈ s.cache, resolveHunk f p.1 = .ok p.2.2

/-- Ghost well-formedness: every cached buffer id was allocated before
the current counter. -/
def idsOK (s : CacheState) : Prop :=
  ∀ p ∈ s.cache, p.2.1 < s.nextId

theorem cacheLookup_mem :
    ∀ (cache : List (Nat × Nat × List Nat)) (k : Nat) (b : Nat × List Nat),
      cacheLookup cache k = some b → (k, b) ∈ cache
  | [], k, b => by simp [cacheLookup]
  | (k2, b2) :: rest, k, b => by
    simp only [cacheLookup]
    split_ifs with hk
    · intro h
      injection h with h2
      subst h2
      subst hk
      exact List.mem_cons_self _ _
    · intro h
      exact List.mem_cons_of_mem _ (cacheLookup_mem rest k b h)

theorem finishHunk_spec (f : ChdFile) (hunkNum : Nat) (s : CacheState)
    (r1 : Except String (List Nat)) (s2 : CacheState)
    (hres1 : r1 = resolveHunk f hunkNum)
    (hca2 : cacheOK f s2) (hid2 : idsOK s2)
    (hnext : s.nextId ≤ s2.nextId)
    (hlen32 : s.cache.length ≤ 32 → s2.cache.length ≤ 32) :
    (finishHunk (r1, s2) hunkNum).1.map Prod.snd = resolveHunk f hunkNum
    ∧ cacheOK f (finishHunk (r1, s2) hunkNum).2
    ∧ idsOK (finishHunk (r1, s2) hunkNum).2
    ∧ s.nextId ≤ (finishHunk (r1, s2) hunkNum).2.nextId
    ∧ (∀ bufId data, (finishHunk (r1, s2) hunkNum).1 = .ok (bufId, data) →
        bufId < (finishHunk (r1, s2) hunkNum).2.nextId)
    ∧ (s.cache.length ≤ 32 → (finishHunk (r1, s2) hunkNum).2.cache.length ≤ 32) := by
  cases r1 with
  | error e =>
    simp only [finishHunk]
    refine ⟨by simp [Except.map, hres1], hca2, hid2, hnext, ?_, hlen32⟩
    intro bufId data h
    exact absurd h (by simp)
  | ok data =>
    simp only [finishHunk]
    refine ⟨by simp [Except.map, hres1], ?_, ?_, ?_, ?_, ?_⟩
    · intro p hp
      simp only at hp
      split_ifs at hp with h32
      · rcases List.mem_cons.mp hp with heq | hmem
        · subst heq
          exact hres1.symm
        · exact hca2 p hmem
      · exact hca2 p hp
    · intro p hp
      simp only at hp ⊢
      split_ifs at hp with h32
      · rcases List.mem_cons.mp hp with hexact | hmem
        · subst hexact
          simp
        · have := hid2 p hmem
          omega
      · have := hid2 p hp
        omega
    · omega
    · intro bufId data h
      injection h with h2
      injection h2 with h3 h4
      omega
    · intro h32
      have h2 := hlen32 h32
      split_ifs with hlt
      · simpa using Nat.succ_le_of_lt hlt
      · exact h2

theorem readHunk_spec (f : ChdFile) :
    ∀ hunkNum s, cacheOK f s → idsOK s →
      (readHunk f s hunkNum).1.map Prod.snd = resolveHunk f hunkNum
      ∧ cacheOK f (readHunk f s hunkNum).2
      ∧ idsOK (readHunk f s hunkNum).2
      ∧ s.nextId ≤ (readHunk f s hunkNum).2.nextId
      ∧ (∀ bufId data, (readHunk f s hunkNum).1 = .ok (bufId, data) →
          bufId < (readHunk f s hunkNum).2.nextId)
      ∧ (s.cache.length ≤ 32 → (readHunk f s hunkNum).2.cache.length ≤ 32) := by
  intro hunkNum
  induction hunkNum using Nat.strong_induction_on with
  | _ hunkNum ih =>
    intro s hca hid
    cases hl : cacheLookup s.cache hunkNum with
    | some b =>
      obtain ⟨bid, data⟩ := b
      have heq : readHunk f s hunkNum = (.ok (bid, data), s) := by
        rw [readHunk, hl]
      have hmem := cacheLookup_mem s.cache hunkNum (bid, data) hl
      have hres : resolveHunk f hunkNum = .ok data := hca _ hmem
      rw [heq]
      refine ⟨by simp [Except.map, hres], hca, hid, le_refl _, ?_, fun h => h⟩
      intro b2 d2 hbd
      injection hbd with h1
      injection h1 with h2 h3
      subst h2
      exact hid _ hmem
    | none =>
      have heq : readHunk f s hunkNum =
          (if f.entries.length ≤ hunkNum then (Except.error "hunk out of range", s)
          else if (f.entries.getD hunkNum (MapEntry.mk 0 0 0 0)).compression = 4 then
            finishHunk
              (f.readUncompressed (f.entries.getD hunkNum (MapEntry.mk 0 0 0 0)).offset, s)
              hunkNum
          else if (f.entries.getD hunkNum (MapEntry.mk 0 0 0 0)).compression ≤ 3 then
            finishHunk
              (f.decompress (f.entries.getD hunkNum (MapEntry.mk 0 0 0 0)).compression
                (f.entries.getD hunkNum (MapEntry.mk 0 0 0 0)).offset
                (f.entries.getD hunkNum (MapEntry.mk 0 0 0 0)).length, s) hunkNum
          else if (f.entries.getD hunkNum (MapEntry.mk 0 0 0 0)).compression = 5 then
            if hunkNum ≤ (f.entries.getD hunkNum (MapEntry.mk 0 0 0 0)).offset
                % 4294967296 then
              (Except.error "forward self-reference", s)
            else
              finishHunk
                (match readHunk f s ((f.entries.getD hunkNum (MapEntry.mk 0 0 0 0)).offset
                    % 4294967296) with
                  | (.ok (_, data), s2) => (.ok data, s2)
                  | (.error e, s2) => (.error ("read self-referenced hunk: " ++ e), s2))
                hunkNum
          else if (f.entries.getD hunkNum (MapEntry.mk 0 0 0 0)).compression = 6 then
            (Except.error "parent CHD references not supported", s)
          else (Except.error "unknown compression type", s)) := by
        rw [readHunk, hl]
      rw [heq]
      by_cases hrange : f.entries.length ≤ hunkNum
      · rw [if_pos hrange]
        have hres : resolveHunk f hunkNum = .error "hunk out of range" := by
          rw [resolveHunk, if_pos hrange]
        refine ⟨by simp [Except.map, hres], hca, hid, le_refl _, ?_, fun h => h⟩
        intro b2 d2 hbd
        exact absurd hbd (by simp)
      rw [if_neg hrange]
      by_cases hc4 : (f.entries.getD hunkNum (MapEntry.mk 0 0 0 0)).compression = 4
      · rw [if_pos hc4]
        have hres : resolveHunk f hunkNum
            = f.readUncompressed (f.entries.getD hunkNum (MapEntry.mk 0 0 0 0)).offset := by
          rw [resolveHunk, if_neg hrange, if_pos hc4]
        exact finishHunk_spec f hunkNum s _ s hres.symm hca hid (le_refl _) (fun h => h)
      rw [if_neg hc4]
      by_cases hc3 : (f.entries.getD hunkNum (MapEntry.mk 0 0 0 0)).compression ≤ 3
      · rw [if_pos hc3]
        have hres : resolveHunk f hunkNum
            = f.decompress (f.entries.getD hunkNum (MapEntry.mk 0 0 0 0)).compression
                (f.entries.getD hunkNum (MapEntry.mk 0 0 0 0)).offset
                (f.entries.getD hunkNum (MapEntry.mk 0 0 0 0)).length := by
          rw [resolveHunk, if_neg hrange, if_neg hc4, if_pos hc3]
        exact finishHunk_spec f hunkNum s _ s hres.symm hca hid (le_refl _) (fun h => h)
      rw [if_neg hc3]
      by_cases hc5 : (f.entries.getD hunkNum (MapEntry.mk 0 0 0 0)).compression = 5
      · rw [if_pos hc5]
        by_cases hfwd : hunkNum ≤ (f.entries.getD hunkNum (MapEntry.mk 0 0 0 0)).offset
            % 4294967296
        · rw [if_pos hfwd]
          have hres : resolveHunk f hunkNum = .error "forward self-reference" := by
            rw [resolveHunk, if_neg hrange, if_neg hc4, if_neg hc3, if_pos hc5, if_pos hfwd]
          refine ⟨by simp [Except.map, hres], hca, hid, le_refl _, ?_, fun h => h⟩
          intro b2 d2 hbd
          exact absurd hbd (by simp)
        · rw [if_neg hfwd]
          obtain ⟨ihA, ihB, ihC, ihD, ihE, ihF⟩ :=
            ih ((f.entries.getD hunkNum (MapEntry.mk 0 0 0 0)).offset % 4294967296)
              (by omega) s hca hid
          cases hrec : readHunk f s
              ((f.entries.getD hunkNum (MapEntry.mk 0 0 0 0)).offset % 4294967296) with
          | mk r1 s2 =>
            rw [hrec] at ihA ihB ihC ihD ihE ihF
            cases r1 with
            | ok p =>
              obtain ⟨bid, data⟩ := p
              have hresj : resolveHunk f
                  ((f.entries.getD hunkNum (MapEntry.mk 0 0 0 0)).offset % 4294967296)
                  = .ok data := by
                simpa [Except.map] using ihA.symm
              have hres : resolveHunk f hunkNum = .ok data := by
                rw [resolveHunk, if_neg hrange, if_neg hc4, if_neg hc3, if_pos hc5,
                  if_neg hfwd, hresj]
              exact finishHunk_spec f hunkNum s (.ok data) s2 hres.symm ihB ihC ihD ihF
            | error e =>
              have hresj : resolveHunk f
                  ((f.entries.getD hunkNum (MapEntry.mk 0 0 0 0)).offset % 4294967296)
                  = .error e := by
                simpa [Except.map] using ihA.symm
              have hres : resolveHunk f hunkNum
                  = .error ("read self-referenced hunk: " ++ e) := by
                rw [resolveHunk, if_neg hrange, if_neg hc4, if_neg hc3, if_pos hc5,
                  if_neg hfwd, hresj]
              exact finishHunk_spec f hunkNum s (.error ("read self-referenced hunk: " ++ e))
                s2 hres.symm ihB ihC ihD ihF
      rw [if_neg hc5]
      by_cases hc6 : (f.entries.getD hunkNum (MapEntry.mk 0 0 0 0)).compression = 6
      · rw [if_pos hc6]
        have hres : resolveHunk f hunkNum = .error "parent CHD references not supported" := by
          rw [resolveHunk, if_neg hrange, if_neg hc4, if_neg hc3, if_neg hc5, if_pos hc6]
        refine ⟨by simp [Except.map, hres], hca, hid, le_refl _, ?_, fun h => h⟩
        intro b2 d2 hbd
        exact absurd hbd (by simp)
      · rw [if_neg hc6]
        have hres : resolveHunk f hunkNum = .error "unknown compression type" := by
          rw [resolveHunk, if_neg hrange, if_neg hc4, if_neg hc3, if_neg hc5, if_neg hc6]
        refine ⟨by simp [Except.map, hres], hca, hid, le_refl _, ?_, fun h => h⟩
        intro b2 d2 hbd
        exact absurd hbd (by simp)

/-- C3: for every hunk at index i whose map entry is a self-reference to
index j (the stored offset truncated to 32 bits), resolving hunk i on a
coherent reader errors when j ≥ i (forward references, including i
itself, are rejected), and when j < i it yields exactly the bytes of the
resolved referent hunk j. -/
theorem chd_self_reference (f : ChdFile) (s : CacheState) (i j : Nat)
    (hca : cacheOK f s) (hid : idsOK s)
    (hi : i < f.entries.length)
    (hself : (f.entries.getD i (MapEntry.mk 0 0 0 0)).compression = 5)
    (hj : (f.entries.getD i (MapEntry.mk 0 0 0 0)).offset % 4294967296 = j) :
    (i ≤ j → ∃ e, (readHunk f s i).1 = .error e)
    ∧ (j < i → ∀ d, resolveHunk f j = .ok d → ∃ bufId, (readHunk f s i).1 = .ok (bufId, d)) := by
  obtain ⟨hA, _, _, _, _, _⟩ := readHunk_spec f i s hca hid
  constructor
  · intro hij
    have hres : resolveHunk f i = .error "forward self-reference" := by
      rw [resolveHunk, if_neg (by omega), hself,
        if_neg (by norm_num), if_neg (by norm_num), if_pos rfl, hj, if_pos hij]
    cases hr : (readHunk f s i).1 with
    | error e => exact ⟨e, rfl⟩
    | ok p =>
      rw [hr, hres] at hA
      exact absurd hA (by simp [Except.map])
  · intro hji d hd
    have hres : resolveHunk f i = .ok d := by
      rw [resolveHunk, if_neg (by omega), hself,
        if_neg (by norm_num), if_neg (by norm_num), if_pos rfl, hj,
        if_neg (by omega), hd]
    cases hr : (readHunk f s i).1 with
    | error e =>
      rw [hr, hres] at hA
      exact absurd hA (by simp [Except.map])
    | ok p =>
      obtain ⟨bid, dd⟩ := p
      rw [hr, hres] at hA
      simp only [Except.map, Except.ok.injEq] at hA
      exact ⟨bid, by rw [hA]⟩

/-- Concrete two-hunk CHD used as a witness: hunk 0 is uncompressed,
hunk 1 is a self-reference to hunk 0. -/
def chdSelfFile : ChdFile :=
  { entries := [MapEntry.mk 4 3 0 0, MapEntry.mk 5 0 0 0]
    hunkBytes := 3
    logicalBytes := 6
    readUncompressed := fun _ => .ok [1, 2, 3]
    decompress := fun _ _ _ => .error "no codec" }

theorem chdSelfFile_resolve0 : resolveHunk chdSelfFile 0 = .ok [1, 2, 3] := by
  rw [resolveHunk, if_neg (by decide), if_pos (by decide)]
  rfl

/-- Closed witness for the self-reference theorem: on the concrete
two-hunk file, hunk 1 resolves to the bytes of hunk 0. -/
theorem chd_self_reference_witness :
    ∃ bufId, (readHunk chdSelfFile openCacheState 1).1 = .ok (bufId, [1, 2, 3]) :=
  (chd_self_reference chdSelfFile openCacheState 1 0
      (by intro p hp; exact absurd hp (by simp [openCacheState]))
      (by intro p hp; exact absurd hp (by simp [openCacheState]))
      (by decide) (by decide) (by decide)).2
    (by decide) [1, 2, 3] chdSelfFile_resolve0

/-- A sequence of hunk reads on one reader, threading the cache. -/
def runReads (f : ChdFile) (s : CacheState) : List Nat → CacheState
  | [] => s
  | i :: rest => runReads f (readHunk f s i).2 rest

theorem runReads_inv (f : ChdFile) :
    ∀ (reqs : List Nat) (s : CacheState), cacheOK f s → idsOK s → s.cache.length ≤ 32 →
      cacheOK f (runReads f s reqs) ∧ idsOK (runReads f s reqs)
        ∧ (runReads f s reqs).cache.length ≤ 32
  | [], s, hca, hid, hlen => ⟨hca, hid, hlen⟩
  | i :: rest, s, hca, hid, hlen => by
    obtain ⟨_, hB, hC, _, _, hF⟩ := readHunk_spec f i s hca hid
    exact runReads_inv f rest (readHunk f s i).2 hB hC (hF hlen)

theorem cacheLookup_cons_ne (k j bid : Nat) (bd : List Nat)
    (c : List (Nat × Nat × List Nat)) (hne : k ≠ j) :
    cacheLookup ((k, bid, bd) :: c) j = cacheLookup c j := by
  simp [cacheLookup, hne]

/-- C9: the hunk cache never exceeds 32 entries — one read preserves the
bound on any coherent state, and any sequence of reads from a freshly
opened reader stays within it — and the buffer stored for a
self-referencing hunk is a fresh copy of the referent bytes: equal in
content to the cached donor entry but a different allocation. -/
theorem chd_cache_bound_and_fresh_copy (f : ChdFile) (s : CacheState)
    (i j bufId : Nat) (d : List Nat) (s2 : CacheState)
    (hca : cacheOK f s) (hid : idsOK s)
    (hl : cacheLookup s.cache i = none)
    (hi : i < f.entries.length)
    (hself : (f.entries.getD i (MapEntry.mk 0 0 0 0)).compression = 5)
    (hj : (f.entries.getD i (MapEntry.mk 0 0 0 0)).offset % 4294967296 = j)
    (hji : j < i)
    (hrok : readHunk f s i = (.ok (bufId, d), s2)) :
    (∀ (s3 : CacheState) (k : Nat), cacheOK f s3 → idsOK s3 → s3.cache.length ≤ 32 →
        (readHunk f s3 k).2.cache.length ≤ 32)
    ∧ (∀ reqs : List Nat, (runReads f openCacheState reqs).cache.length ≤ 32)
    ∧ (∀ idj dj, cacheLookup s2.cache j = some (idj, dj) → dj = d ∧ idj ≠ bufId) := by
  refine ⟨?_, ?_, ?_⟩
  · intro s3 k hca3 hid3 hlen3
    exact (readHunk_spec f k s3 hca3 hid3).2.2.2.2.2 hlen3
  · intro reqs
    exact (runReads_inv f reqs openCacheState
      (by intro p hp; exact absurd hp (by simp [openCacheState]))
      (by intro p hp; exact absurd hp (by simp [openCacheState]))
      (by simp [openCacheState])).2.2
  · have hiq : readHunk f s i
        = finishHunk
            (match readHunk f s j with
              | (.ok (_, data), s2) => (.ok data, s2)
              | (.error e, s2) => (.error ("read self-referenced hunk: " ++ e), s2)) i := by
      rw [readHunk, hl, if_neg (show ¬ f.entries.length ≤ i by omega), hself,
        if_neg (by norm_num), if_neg (by norm_num), if_pos rfl, hj, if_neg (by omega)]
    obtain ⟨sA, sB, sC, sD, sE, sF⟩ := readHunk_spec f j s hca hid
    cases hinner : readHunk f s j with
    | mk r1 s1 =>
      rw [hinner] at hiq sA sB sC sD sE sF
      cases r1 with
      | error e =>
        rw [hrok] at hiq
        simp only [finishHunk] at hiq
        injection hiq with h1 h2
        exact absurd h1 (by simp)
      | ok p =>
        obtain ⟨bidj, dataj⟩ := p
        rw [hrok] at hiq
        simp only [finishHunk] at hiq
        injection hiq with h1 h2
        injection h1 with h3
        injection h3 with h4 h5
        have hresj : resolveHunk f j = .ok dataj := by
          simpa [Except.map] using sA.symm
        intro idj dj hlook
        rw [h2] at hlook
        simp only at hlook
        have hlook2 : cacheLookup s1.cache j = some (idj, dj) := by
          by_cases h32 : s1.cache.length < 32
          · rw [if_pos h32] at hlook
            rwa [cacheLookup_cons_ne i j s1.nextId dataj s1.cache (by omega)] at hlook
          · rwa [if_neg h32] at hlook
        have hmem := cacheLookup_mem s1.cache j (idj, dj) hlook2
        have hdj : dj = dataj := by
          have := sB _ hmem
          rw [hresj] at this
          injection this with h6
          exact h6.symm
        have hidj : idj < s1.nextId := sC _ hmem
        constructor
        · rw [hdj, ← h5]
        · omega

theorem chdSelfFile_read0 :
    readHunk chdSelfFile openCacheState 0
      = (.ok (0, [1, 2, 3]), { cache := [(0, 0, [1, 2, 3])], nextId := 1 }) := by
  rw [readHunk]
  rfl

theorem chdSelfFile_read1 :
    readHunk chdSelfFile openCacheState 1
      = (.ok (1, [1, 2, 3]),
          { cache := [(1, 1, [1, 2, 3]), (0, 0, [1, 2, 3])], nextId := 2 }) := by
  have hiq : readHunk chdSelfFile openCacheState 1
      = finishHunk
          (match readHunk chdSelfFile openCacheState 0 with
            | (.ok (_, data), s2) => (.ok data, s2)
            | (.error e, s2) => (.error ("read self-referenced hunk: " ++ e), s2)) 1 := by
    rw [readHunk, (rfl : cacheLookup openCacheState.cache 1 = none),
      if_neg (by decide), if_neg (by decide), if_neg (by decide), if_pos (by decide),
      if_neg (by decide),
      show (chdSelfFile.entries.getD 1 (MapEntry.mk 0 0 0 0)).offset % 4294967296 = 0
        from by decide]
    rfl
  rw [hiq, chdSelfFile_read0]
  rfl

/-- Closed witness for the cache theorem on the concrete two-hunk file:
the copy cached for the self-referencing hunk 1 equals the donor bytes
but has a different buffer identity, and a concrete read sequence keeps
the cache within 32 entries. -/
theorem chd_cache_bound_and_fresh_copy_witness :
    ([1, 2, 3] = [1, 2, 3] ∧ (0 : Nat) ≠ 1)
    ∧ (runReads chdSelfFile openCacheState [1, 0, 1]).cache.length ≤ 32 := by
  have h := chd_cache_bound_and_fresh_copy chdSelfFile openCacheState 1 0 1 [1, 2, 3]
    { cache := [(1, 1, [1, 2, 3]), (0, 0, [1, 2, 3])], nextId := 2 }
    (by intro p hp; exact absurd hp (by simp [openCacheState]))
    (by intro p hp; exact absurd hp (by simp [openCacheState]))
    rfl (by decide) (by decide) (by decide) (by decide) chdSelfFile_read1
  exact ⟨h.2.2 0 [1, 2, 3] rfl, h.2.1 [1, 0, 1]⟩

/-- The copy loop of `Reader.ReadAt` (root.go lines 228-253) followed by
the post-loop EOF check (lines 255-258).  `pos` is the current logical
position, `remaining` is `len(p) - n`, `acc` holds the bytes written
into `p`; the state threads the hunk cache through `readHunk`. -/
def chdReadLoop (f : ChdFile) (s : CacheState) (pos remaining n : Nat) (acc : List Nat) :
    (Nat × List Nat × Option GoErr) × CacheState :=
  if hloop : remaining = 0 ∨ f.logicalBytes ≤ pos then
    if n = 0 ∧ 0 < remaining then ((0, acc, some .eof), s) else ((n, acc, none), s)
  else
    match readHunk f s (pos / f.hunkBytes) with
    | (.error e, s2) =>
      if 0 < n then ((n, acc, none), s2)
      else ((0, acc, some (.msg ("read hunk: " ++ e))), s2)
    | (.ok (_, hunkData), s2) =>
      if hav : hunkData.length ≤ pos % f.hunkBytes then
        if n = 0 ∧ 0 < remaining then ((0, acc, some .eof), s2) else ((n, acc, none), s2)
      else
        chdReadLoop f s2 (pos + min remaining (hunkData.length - pos % f.hunkBytes))
          (remaining - min remaining (hunkData.length - pos % f.hunkBytes))
          (n + min remaining (hunkData.length - pos % f.hunkBytes))
          (acc ++ (hunkData.drop (pos % f.hunkBytes)).take
            (min remaining (hunkData.length - pos % f.hunkBytes)))
termination_by remaining
decreasing_by
  simp_wf
  omega

/-- Embedding of `Reader.ReadAt` (root.go lines 216-259): negative
offsets error, offsets at or past the logical size return EOF, otherwise
the copy loop runs. -/
def chdReadAt (f : ChdFile) (s : CacheState) (off : Int) (pLen : Nat) :
    (Nat × List Nat × Option GoErr) × CacheState :=
  if off < 0 then ((0, [], some (.msg "negative offset")), s)
  else if (f.logicalBytes : Int) ≤ off then ((0, [], some .eof), s)
  else chdReadLoop f s off.toNat pLen 0 []

theorem chdReadLoop_err_zero (f : ChdFile) :
    ∀ (remaining : Nat) (s : CacheState) (pos n : Nat) (acc : List Nat)
      (nr : Nat) (acc2 : List Nat) (e : GoErr) (s2 : CacheState),
      chdReadLoop f s pos remaining n acc = ((nr, acc2, some e), s2) → nr = 0 := by
  intro remaining
  induction remaining using Nat.strong_induction_on with
  | _ remaining ih =>
    intro s pos n acc nr acc2 e s2 h
    rw [chdReadLoop] at h
    by_cases hloop : remaining = 0 ∨ f.logicalBytes ≤ pos
    · rw [dif_pos hloop] at h
      split_ifs at h with hcond
      · injection h with h1 h2
        injection h1 with h3 h4
        exact h3.symm
      · injection h with h1 h2
        injection h1 with h3 h4
        injection h4 with h5 h6
        exact absurd h6 (by simp)
    · rw [dif_neg hloop] at h
      cases hrh : readHunk f s (pos / f.hunkBytes) with
      | mk r1 s3 =>
        rw [hrh] at h
        cases r1 with
        | error e2 =>
          dsimp only at h
          split_ifs at h with hn
          · injection h with h1 h2
            injection h1 with h3 h4
            injection h4 with h5 h6
            exact absurd h6 (by simp)
          · injection h with h1 h2
            injection h1 with h3 h4
            exact h3.symm
        | ok p =>
          obtain ⟨bid, hunkData⟩ := p
          dsimp only at h
          by_cases hav : hunkData.length ≤ pos % f.hunkBytes
          · rw [dif_pos hav] at h
            split_ifs at h with hcond
            · injection h with h1 h2
              injection h1 with h3 h4
              exact h3.symm
            · injection h with h1 h2
              injection h1 with h3 h4
              injection h4 with h5 h6
              exact absurd h6 (by simp)
          · rw [dif_neg hav] at h
            exact ih _ (by omega) _ _ _ _ _ _ _ _ h

theorem chdReadLoop_short_read (f : ChdFile) (s : CacheState) (pos remaining n : Nat)
    (acc : List Nat) (e : String)
    (hrem : remaining ≠ 0) (hpos : pos < f.logicalBytes)
    (hre : (readHunk f s (pos / f.hunkBytes)).1 = .error e) (hn : 0 < n) :
    chdReadLoop f s pos remaining n acc
      = ((n, acc, none), (readHunk f s (pos / f.hunkBytes)).2) := by
  rw [chdReadLoop, dif_neg (by omega)]
  cases hrh : readHunk f s (pos / f.hunkBytes) with
  | mk r1 s2 =>
    rw [hrh] at hre
    cases r1 with
    | error e2 =>
      dsimp only
      rw [if_pos hn]
    | ok p =>
      exact absurd hre (by simp)

/-- C10: a logical read at an offset at or past the logical byte count
returns 0 bytes with EOF; any error outcome of ReadAt carries a byte
count of 0; and when a hunk fails to resolve after at least one byte has
been copied, the loop returns the partial byte count with no error. -/
theorem chd_readAt_eof_and_short_read (f : ChdFile) (s : CacheState) (off : Int) (pLen : Nat)
    (pos remaining n : Nat) (acc : List Nat) (e : String)
    (nr : Nat) (acc2 : List Nat) (ge : GoErr) (s2 : CacheState) :
    (0 ≤ off → (f.logicalBytes : Int) ≤ off → chdReadAt f s off pLen = ((0, [], some .eof), s))
    ∧ (chdReadAt f s off pLen = ((nr, acc2, some ge), s2) → nr = 0)
    ∧ (remaining ≠ 0 → pos < f.logicalBytes →
        (readHunk f s (pos / f.hunkBytes)).1 = .error e → 0 < n →
        chdReadLoop f s pos remaining n acc
          = ((n, acc, none), (readHunk f s (pos / f.hunkBytes)).2)) := by
  refine ⟨?_, ?_, ?_⟩
  · intro h0 hoff
    rw [chdReadAt, if_neg (by omega), if_pos hoff]
  · intro h
    rw [chdReadAt] at h
    split_ifs at h with h1 h2
    · injection h with h3 h4
      injection h3 with h5 h6
      exact h5.symm
    · injection h with h3 h4
      injection h3 with h5 h6
      exact h5.symm
    · exact chdReadLoop_err_zero f pLen s off.toNat 0 [] nr acc2 ge s2 h
  · intro hrem hpos hre hn
    exact chdReadLoop_short_read f s pos remaining n acc e hrem hpos hre hn

/-- Concrete two-hunk CHD whose second hunk is an unsupported parent
reference, used to exercise the partial-read behavior. -/
def chdPartialFile : ChdFile :=
  { entries := [MapEntry.mk 4 3 0 0, MapEntry.mk 6 0 0 0]
    hunkBytes := 3
    logicalBytes := 6
    readUncompressed := fun _ => .ok [1, 2, 3]
    decompress := fun _ _ _ => .error "no codec" }

theorem chdPartialFile_read1 :
    readHunk chdPartialFile openCacheState 1
      = (.error "parent CHD references not supported", openCacheState) := by
  rw [readHunk]
  rfl

/-- Closed witness for the ReadAt theorem: an offset past the logical
size returns EOF with 0 bytes, and a hunk failure after 3 copied bytes
returns the partial count 3 with no error. -/
theorem chd_readAt_eof_and_short_read_witness :
    chdReadAt chdSelfFile openCacheState 10 4 = ((0, [], some .eof), openCacheState)
    ∧ chdReadLoop chdPartialFile openCacheState 3 2 3 [9, 9, 9]
        = ((3, [9, 9, 9], none),
            (readHunk chdPartialFile openCacheState (3 / chdPartialFile.hunkBytes)).2) := by
  constructor
  · exact (chd_readAt_eof_and_short_read chdSelfFile openCacheState 10 4 0 1 0 [] "" 0 [] .eof
      openCacheState).1 (by norm_num) (by norm_num [chdSelfFile])
  · exact (chd_readAt_eof_and_short_read chdPartialFile openCacheState 0 0 3 2 3 [9, 9, 9]
      "parent CHD references not supported" 0 [] .eof openCacheState).2.2
      (by norm_num) (by norm_num [chdPartialFile])
      (by rw [show (3 : Nat) / chdPartialFile.hunkBytes = 1 from rfl, chdPartialFile_read1])
      (by norm_num)
